import Mathlib

/-!
Verification of the lox bytecode interpreter (rustlox) against its
specification.  The Rust sources are shallowly embedded: shared `Rc`
pointers become numeric identities into explicit arenas, raw stack
pointers become stack indices (the value stack is one contiguous array,
so pointer order coincides with index order), `f64` literals are modelled
as rationals (no claim under scrutiny involves NaN or rounding), and
Rust panics (out-of-bounds indexing, failed unwraps) are modelled as
explicit failure results.
-/

namespace Lox

/-- Runtime function prototype (value.rs:7-13).  `chunk : Rc<Chunk>` is kept
only as its pointer identity `chunkId`, which is all `PartialEq` consults;
`name : string::Handle` is the interned-handle integer. -/
structure Function where
  arity : Nat
  chunkId : Nat
  name : Nat
  upvalue_count : Nat
deriving DecidableEq

/-- Closure (value.rs:31-36).  The `Rc<RefCell<Upvalue>>` cells are shared by
identity, represented as indices into the VM's cell arena. -/
structure Closure where
  function : Function
  upvalues : List Nat
  upvalue_count : Nat
deriving DecidableEq

/-- Runtime value (value.rs:93-102).  `Number(f64)` is modelled with ℚ;
`Native` keeps only the host function's pointer identity, `String` the
interned handle. -/
inductive Value where
  | bool (b : Bool)
  | number (n : ℚ)
  | nil
  | string (h : Nat)
  | function (f : Function)
  | native (f : Nat)
  | closure (c : Closure)
deriving DecidableEq

/-- `impl Default for Value` (value.rs:104-108). -/
instance : Inhabited Value := ⟨Value.nil⟩

/-- `impl PartialEq for Value` (value.rs:124-136).  Functions compare by
`Rc::ptr_eq` on their chunk, natives by function-pointer identity, and every
pair not covered by an arm — including two Closures — falls to `_ => false`. -/
def valueEq : Value → Value → Bool
  | .bool a, .bool b => a = b
  | .nil, .nil => true
  | .number a, .number b => a = b
  | .string a, .string b => a = b
  | .function a, .function b => a.chunkId = b.chunkId
  | .native a, .native b => a = b
  | _, _ => false

/-- `Value::is_falsy` (value.rs:139-144). -/
def Value.is_falsy : Value → Bool
  | .nil => true
  | .bool false => true
  | _ => false

/-- Claim C2: the claim asserts `f() == f` prints `true` and that a function
value compared with itself yields true.  Runtime function values are
`Value::Closure`s (Op::Closure wraps every compiled function, vm.rs:467-488,
and Op::Equal at vm.rs:405-409 pushes `Bool(a == b)`), but `PartialEq for
Value` has no Closure arm, so a Closure value compared with itself falls
through to `_ => false`: the program prints `false`.  Function prototypes do
compare by chunk identity, as the second conjunct shows. -/
theorem closure_self_equality_false :
    valueEq (.closure ⟨⟨0, 7, 0, 0⟩, [], 0⟩) (.closure ⟨⟨0, 7, 0, 0⟩, [], 0⟩) = false ∧
    valueEq (.function ⟨0, 7, 0, 0⟩) (.function ⟨0, 7, 0, 0⟩) = true := by
  exact ⟨rfl, by decide⟩

/-! ## Upvalue cells (value.rs:55-91) -/

/-- Where an upvalue cell's `location : *mut Value` points: at a live stack
slot (OPEN), or at the cell's own `closed` field after `close()` (CLOSED). -/
inductive UpvalueLoc where
  | stack (i : Nat)
  | ownClosed
deriving DecidableEq

/-- An upvalue cell (value.rs:55-60).  The `next` link of the open-upvalue
list is represented externally by the VM's `opens` list. -/
structure UpvCell where
  location : UpvalueLoc
  closed : Value
deriving DecidableEq

instance : Inhabited UpvCell := ⟨⟨.ownClosed, .nil⟩⟩

/-- `Upvalue::as_value` (value.rs:84-86): reads through `location`. -/
def UpvCell.as_value (stack : List Value) (u : UpvCell) : Value :=
  match u.location with
  | .stack i => stack.getD i .nil
  | .ownClosed => u.closed

/-- The body of the VM's `Op::SetUpvalue` handler (vm.rs:396-404): it assigns
`upvalue.closed = value`, always writing the `closed` field. -/
def opSetUpvalue (u : UpvCell) (v : Value) : UpvCell :=
  { u with closed := v }

/-- `Upvalue::set_value` (value.rs:88-90): writes through `location`.  This
method exists in the source but is never called by the VM. -/
def UpvCell.set_value (stack : List Value) (u : UpvCell) (v : Value) :
    List Value × UpvCell :=
  match u.location with
  | .stack i => (stack.set i v, u)
  | .ownClosed => (stack, { u with closed := v })

/-- `Upvalue::close` (value.rs:78-82): copies the pointed-at value into
`closed` and repoints `location` at the cell's own field. -/
def UpvCell.close (stack : List Value) (u : UpvCell) : UpvCell :=
  { location := .ownClosed, closed := u.as_value stack }

/-- Claim C1: the claim requires that after SetUpvalue writes v through a
cell, GetUpvalue through that cell yields v, and while the cell is OPEN a
GetLocal of the aliased slot yields v.  The handler writes the `closed` field
of an open cell, which `as_value` (used by Op::GetUpvalue, vm.rs:389-395) and
GetLocal both ignore: with stack slot 0 holding 1, writing 2 through an open
cell at slot 0 leaves every subsequent read at 1.  On a CLOSED cell (and with
the never-called `set_value`) the write does behave as claimed. -/
theorem setUpvalue_open_cell_write_lost :
    (opSetUpvalue ⟨.stack 0, .nil⟩ (.number 2)).as_value [Value.number 1] = .number 1 ∧
    (opSetUpvalue ⟨.stack 0, .nil⟩ (.number 2)).as_value [Value.number 1] ≠ .number 2 ∧
    ([Value.number 1].getD 0 .nil ≠ .number 2) ∧
    (opSetUpvalue ⟨.ownClosed, .nil⟩ (.number 2)).as_value [Value.number 1] = .number 2 ∧
    ((UpvCell.set_value [Value.number 1] ⟨.stack 0, .nil⟩ (.number 2)).1.getD 0 .nil
      = .number 2) := by
  refine ⟨rfl, by decide, by decide, rfl, rfl⟩

/-! ## Call frames and VM::call (vm.rs:18-47, 166-189) -/

/-- A call frame (vm.rs:18-23). -/
structure CallFrame where
  closure : Option Closure
  ip : Nat
  starts_at : Nat
deriving DecidableEq

def CALL_FRAME_MAX : Nat := 64

def STACK_MAX : Nat := 256

/-- The part of `VM` state that `VM::call` touches (vm.rs:49-59).  `frames`
is the fixed array `[CallFrame; CALL_FRAME_MAX]`. -/
structure VMFrames where
  stack_count : Nat
  frames : List CallFrame
  frame_count : Nat
deriving DecidableEq

/-- Outcome of `VM::call`: success, a runtime error (the `runtime_error`
path, which prints, resets the stack and returns Err(RuntimeError)), or a
Rust index-out-of-bounds panic. -/
inductive CallResult where
  | ok (s : VMFrames)
  | runtimeError (msg : String)
  | indexOutOfBounds
deriving DecidableEq

/-- `VM::call` (vm.rs:166-189), exactly as written: the arity check first,
then the write `self.frames[self.frame_count]` — which panics when
`frame_count` is not below the array length — then the increment, and only
then the overflow check, which compares against STACK_MAX (256), not
CALL_FRAME_MAX (64). -/
def VM.call (s : VMFrames) (closure : Closure) (arg_count : Nat) : CallResult :=
  if arg_count ≠ closure.function.arity then
    .runtimeError ("Expected " ++ toString closure.function.arity ++
      " arguments but got " ++ toString arg_count ++ ".")
  else
    let starts_at := s.stack_count - arg_count - 1
    if s.frame_count < s.frames.length then
      let frames := s.frames.set s.frame_count
        { starts_at := starts_at, closure := some closure, ip := 0 }
      let frame_count := s.frame_count + 1
      if frame_count = STACK_MAX then
        .runtimeError "Stack overflow."
      else
        .ok { s with frames := frames, frame_count := frame_count }
    else
      .indexOutOfBounds

/-- Claim C3: the claim requires that with all 64 call frames in use, calling
a Closure produces the runtime error "Stack overflow." and never indexes the
frame array out of bounds.  In the state with `frame_count = 64` and the
64-entry frame array, `VM::call` reaches `&mut self.frames[self.frame_count]`
and panics with an out-of-bounds index instead; the "Stack overflow." branch
is unreachable there (and compares against 256, not 64). -/
theorem call_with_full_frames_out_of_bounds :
    VM.call ⟨65, List.replicate CALL_FRAME_MAX ⟨none, 0, 0⟩, CALL_FRAME_MAX⟩
        ⟨⟨0, 0, 0, 0⟩, [], 0⟩ 0 = .indexOutOfBounds ∧
    VM.call ⟨65, List.replicate CALL_FRAME_MAX ⟨none, 0, 0⟩, CALL_FRAME_MAX⟩
        ⟨⟨0, 0, 0, 0⟩, [], 0⟩ 0 ≠ .runtimeError "Stack overflow." := by
  constructor
  · rfl
  · decide

/-! ## The open-upvalue list (vm.rs:210-265) and Op::Closure (vm.rs:467-488)

The VM owns `open_upvalues`, the head of a singly-linked list of
`Rc<RefCell<Upvalue>>` threaded through the cells' `next` fields.  Cells are
embedded as an arena `cells : List UpvCell` (index = Rc identity) and the
linked list as the explicit id list `opens` (head first); a cell's `next` is
the id that follows it in `opens`.  The raw-pointer comparisons
`location as usize > location as usize` compare addresses of slots of the one
contiguous stack array, hence coincide with comparisons of stack indices;
a CLOSED cell never sits in the open list (close detaches as it closes), so
the comparison helpers below answer `false` for `ownClosed`. -/

def UpvalueLoc.gtStack : UpvalueLoc → Nat → Bool
  | .stack l, loc => loc < l
  | .ownClosed, _ => false

def UpvalueLoc.eqStack : UpvalueLoc → Nat → Bool
  | .stack l, loc => l = loc
  | .ownClosed, _ => false

def UpvalueLoc.geStack : UpvalueLoc → Nat → Bool
  | .stack l, loc => loc ≤ l
  | .ownClosed, _ => false

/-- The cell stored at id (arena read through the Rc). -/
def cellAt (cells : List UpvCell) (id : Nat) : UpvCell :=
  cells.getD id default

/-- `VM::capture_upvalue` (vm.rs:210-248).  Walks the open list while the
cell's location is above the requested one; reuses the cell that equals it;
otherwise allocates `Upvalue::new(location, current)` (closed = Nil) and
links it in right there.  Returns the id of the reused or created cell plus
the updated arena and open list. -/
def captureUpvalue (cells : List UpvCell) (location : Nat) :
    List Nat → Nat × List UpvCell × List Nat
  | [] => (cells.length, cells ++ [⟨.stack location, .nil⟩], [cells.length])
  | id :: rest =>
    if (cellAt cells id).location.gtStack location then
      let r := captureUpvalue cells location rest
      (r.1, r.2.1, id :: r.2.2)
    else if (cellAt cells id).location.eqStack location then
      (id, cells, id :: rest)
    else
      (cells.length, cells ++ [⟨.stack location, .nil⟩], cells.length :: id :: rest)

/-- `VM::close_upvalues` (vm.rs:250-265): while the head cell's location is
at or above `last`, close it (copying the stack value into the cell) and
detach it from the list. -/
def closeUpvalues (stack : List Value) (last : Nat) :
    List UpvCell → List Nat → List UpvCell × List Nat
  | cells, [] => (cells, [])
  | cells, id :: rest =>
    if (cellAt cells id).location.geStack last then
      closeUpvalues stack last (cells.set id ((cellAt cells id).close stack)) rest
    else
      (cells, id :: rest)

/-- The upvalue-construction loop of `Op::Closure` (vm.rs:474-486).  `pairs`
holds the `(is_local, index)` operand byte pairs in order, `i` is the loop
counter, `cur_ups` the current frame closure's upvalue cell ids, `offset` the
frame's `starts_at`.  For `is_local == 1` the loop captures
`&stack[offset + index]`; otherwise it clones
`current_frame closure.upvalues[i]` — the source reads `index` but then
indexes with the loop counter `i`.  `none` models the Rust panic when that
indexing is out of bounds. -/
def closureUpvalues (offset : Nat) (cur_ups : List Nat) :
    Nat → List (Nat × Nat) → List UpvCell → List Nat →
    Option (List Nat × List UpvCell × List Nat)
  | _, [], cells, opens => some ([], cells, opens)
  | i, (is_local, index) :: pairs, cells, opens =>
    if is_local = 1 then
      let r := captureUpvalue cells (offset + index) opens
      match closureUpvalues offset cur_ups (i + 1) pairs r.2.1 r.2.2 with
      | some (ids, cells3, opens3) => some (r.1 :: ids, cells3, opens3)
      | none => none
    else
      match cur_ups.get? i with
      | some id =>
        match closureUpvalues offset cur_ups (i + 1) pairs cells opens with
        | some (ids, cells3, opens3) => some (id :: ids, cells3, opens3)
        | none => none
      | none => none

/-- Claim C4: the claim requires that the i-th upvalue pair read with
`is_local = 0` makes the new closure's i-th cell be the enclosing closure's
`upvalues[index]`.  With the enclosing closure holding cells 8 and 9 and the
single operand pair (is_local = 0, index = 1), the code yields cell 8 —
`upvalues[i]` for loop counter i = 0 — not cell 9 = `upvalues[index]`. -/
theorem closure_nonlocal_upvalue_uses_loop_counter :
    closureUpvalues 0 [8, 9] 0 [(0, 1)] [] [] = some ([8], [], []) ∧
    ([8] : List Nat) ≠ [9] := by
  exact ⟨rfl, by decide⟩

/-! ### The open-upvalue list invariant (claim C6) -/

/-- The stack index a cell in the open list points at (only ever applied to
open cells; 0 is a don't-care for closed ones). -/
def cellLocD (cells : List UpvCell) (id : Nat) : Nat :=
  match (cellAt cells id).location with
  | .stack l => l
  | .ownClosed => 0

/-- The stack indices the open-list cells point at, in list order. -/
def openLocs (cells : List UpvCell) (opens : List Nat) : List Nat :=
  opens.map (cellLocD cells)

def UpvalueLoc.isStack : UpvalueLoc → Bool
  | .stack _ => true
  | .ownClosed => false

/-- A valid member of the open list: an allocated cell that is OPEN. -/
abbrev IsOpenId (cells : List UpvCell) (id : Nat) : Prop :=
  id < cells.length ∧ (cellAt cells id).location.isStack = true

/-- Well-formedness of the VM's open-upvalue list: every listed cell is an
allocated open cell, and the pointed-at stack indices are strictly
descending. -/
abbrev OpensWF (cells : List UpvCell) (opens : List Nat) : Prop :=
  (∀ id ∈ opens, IsOpenId cells id) ∧ (openLocs cells opens).Pairwise (· > ·)

theorem cellAt_append_lt (cells ext : List UpvCell) (id : Nat) (h : id < cells.length) :
    cellAt (cells ++ ext) id = cellAt cells id := by
  simp only [cellAt]
  exact List.getD_append _ _ _ _ h

theorem cellAt_append_len (cells : List UpvCell) (c : UpvCell) :
    cellAt (cells ++ [c]) cells.length = c := by
  simp only [cellAt]
  rw [List.getD_append_right _ _ _ _ (le_refl _)]
  simp

theorem cellAt_set_ne (cells : List UpvCell) (j id : Nat) (c : UpvCell) (h : j ≠ id) :
    cellAt (cells.set j c) id = cellAt cells id := by
  show ((cells.set j c).get? id).getD default = (cells.get? id).getD default
  rw [List.get?_set_ne c cells h]

theorem cellLocD_append (cells ext : List UpvCell) (id : Nat) (h : id < cells.length) :
    cellLocD (cells ++ ext) id = cellLocD cells id := by
  simp only [cellLocD, cellAt_append_lt _ _ _ h]

theorem openLocs_congr (cells cells' : List UpvCell) (opens : List Nat)
    (h : ∀ id ∈ opens, cellLocD cells' id = cellLocD cells id) :
    openLocs cells' opens = openLocs cells opens := by
  induction opens with
  | nil => rfl
  | cons id rest ih =>
    simp only [openLocs, List.map_cons]
    rw [h id (by simp)]
    have := ih fun i hi => h i (by simp [hi])
    simp only [openLocs] at this
    rw [this]

theorem opens_nodup_of_pairwise (cells : List UpvCell) (opens : List Nat)
    (h : (openLocs cells opens).Pairwise (· > ·)) : opens.Nodup :=
  List.Nodup.of_map (cellLocD cells) (h.imp fun hab => ne_of_gt hab)

/-- After capture the arena is unchanged or extended by the one new cell. -/
theorem captureUpvalue_cells (cells : List UpvCell) (loc : Nat) :
    ∀ opens, (captureUpvalue cells loc opens).2.1 = cells ∨
      (captureUpvalue cells loc opens).2.1 = cells ++ [⟨.stack loc, .nil⟩] := by
  intro opens
  induction opens with
  | nil => right; rfl
  | cons id rest ih =>
    simp only [captureUpvalue]
    by_cases h1 : (cellAt cells id).location.gtStack loc = true
    · simpa [h1] using ih
    · by_cases h2 : (cellAt cells id).location.eqStack loc = true
      · simp [h1, h2]
      · simp [h1, h2]

/-- Everything claim C6 says about `capture_upvalue`, of one VM state:
well-formedness (in particular strict descent) is preserved, the returned
cell is in the list and points at the requested slot, a pre-existing cell for
that slot is reused with arena and list untouched, and otherwise exactly the
new location is inserted. -/
def CaptureSpec (cells : List UpvCell) (opens : List Nat) (loc : Nat) : Prop :=
  (∀ id ∈ (captureUpvalue cells loc opens).2.2,
      IsOpenId (captureUpvalue cells loc opens).2.1 id) ∧
  (openLocs (captureUpvalue cells loc opens).2.1
      (captureUpvalue cells loc opens).2.2).Pairwise (· > ·) ∧
  cellLocD (captureUpvalue cells loc opens).2.1 (captureUpvalue cells loc opens).1 = loc ∧
  (captureUpvalue cells loc opens).1 ∈ (captureUpvalue cells loc opens).2.2 ∧
  (loc ∈ openLocs cells opens →
      (captureUpvalue cells loc opens).2.1 = cells ∧
      (captureUpvalue cells loc opens).2.2 = opens) ∧
  (∀ l, l ∈ openLocs (captureUpvalue cells loc opens).2.1
      (captureUpvalue cells loc opens).2.2 ↔ l = loc ∨ l ∈ openLocs cells opens)

/-- What claim C6 says about `close_upvalues`: it detaches a prefix of the
open list and preserves well-formedness. -/
def CloseSpec (cells : List UpvCell) (opens : List Nat) (stack : List Value)
    (last : Nat) : Prop :=
  (∃ pre, opens = pre ++ (closeUpvalues stack last cells opens).2) ∧
  (∀ id ∈ (closeUpvalues stack last cells opens).2,
      IsOpenId (closeUpvalues stack last cells opens).1 id) ∧
  (openLocs (closeUpvalues stack last cells opens).1
      (closeUpvalues stack last cells opens).2).Pairwise (· > ·)

theorem captureUpvalue_spec (loc : Nat) (opens : List Nat) (cells : List UpvCell)
    (h1 : ∀ id ∈ opens, IsOpenId cells id)
    (h2 : (openLocs cells opens).Pairwise (· > ·)) :
    CaptureSpec cells opens loc := by
  induction opens with
  | nil =>
    refine ⟨?_, ?_, ?_, ?_, ?_, ?_⟩
    · intro id hid
      simp only [captureUpvalue, List.mem_singleton] at hid
      subst hid
      refine ⟨by simp [captureUpvalue], ?_⟩
      simp only [captureUpvalue]
      rw [cellAt_append_len]
      rfl
    · simp only [captureUpvalue, openLocs, List.map_cons, List.map_nil]
      exact List.pairwise_singleton _ _
    · simp only [captureUpvalue, cellLocD]
      rw [cellAt_append_len]
    · simp [captureUpvalue]
    · simp [openLocs]
    · intro l
      simp only [captureUpvalue, openLocs, List.map_cons, List.map_nil, cellLocD]
      rw [cellAt_append_len]
      simp
  | cons id rest ih =>
    have hopen := h1 id (by simp)
    obtain ⟨hidlt, hstk⟩ := hopen
    obtain ⟨l, hloc⟩ : ∃ l, (cellAt cells id).location = .stack l := by
      cases hcase : (cellAt cells id).location with
      | stack l => exact ⟨l, rfl⟩
      | ownClosed => rw [hcase] at hstk; simp [UpvalueLoc.isStack] at hstk
    have hlocd : cellLocD cells id = l := by simp [cellLocD, hloc]
    have h1r : ∀ i ∈ rest, IsOpenId cells i := fun i hi => h1 i (by simp [hi])
    have h2c : (cellLocD cells id :: openLocs cells rest).Pairwise (· > ·) := h2
    have h2r : (openLocs cells rest).Pairwise (· > ·) := h2c.of_cons
    have hhead : ∀ b ∈ openLocs cells rest, cellLocD cells id > b :=
      (List.pairwise_cons.mp h2c).1
    by_cases hlt : loc < l
    · -- walk past this cell
      have hc : (cellAt cells id).location.gtStack loc = true := by
        rw [hloc]; simp [UpvalueLoc.gtStack, hlt]
      have heq : captureUpvalue cells loc (id :: rest) =
          ((captureUpvalue cells loc rest).1, (captureUpvalue cells loc rest).2.1,
            id :: (captureUpvalue cells loc rest).2.2) := by
        simp [captureUpvalue, hc]
      obtain ⟨c1, c2, c3, c4, c5, c6⟩ := ih h1r h2r
      have hcells := captureUpvalue_cells cells loc rest
      have hid_open : IsOpenId (captureUpvalue cells loc rest).2.1 id := by
        rcases hcells with hsame | happ
        · rw [hsame]; exact ⟨hidlt, hstk⟩
        · rw [happ]
          refine ⟨by simp; omega, ?_⟩
          rw [cellAt_append_lt _ _ _ hidlt]; exact hstk
      have hlocd' : cellLocD (captureUpvalue cells loc rest).2.1 id = l := by
        rcases hcells with hsame | happ
        · rw [hsame, hlocd]
        · rw [happ, cellLocD_append _ _ _ hidlt, hlocd]
      have e1 : (captureUpvalue cells loc (id :: rest)).1 =
          (captureUpvalue cells loc rest).1 := by rw [heq]
      have e2 : (captureUpvalue cells loc (id :: rest)).2.1 =
          (captureUpvalue cells loc rest).2.1 := by rw [heq]
      have e3 : (captureUpvalue cells loc (id :: rest)).2.2 =
          id :: (captureUpvalue cells loc rest).2.2 := by rw [heq]
      refine ⟨?_, ?_, ?_, ?_, ?_, ?_⟩
      · rw [e2, e3]
        intro i hi
        simp only [List.mem_cons] at hi
        rcases hi with rfl | hi
        · exact hid_open
        · exact c1 i hi
      · rw [e2, e3]
        simp only [openLocs, List.map_cons]
        rw [List.pairwise_cons]
        constructor
        · intro b hb
          have : b = loc ∨ b ∈ openLocs cells rest := (c6 b).mp hb
          rcases this with rfl | hb'
          · rw [hlocd']; exact hlt
          · rw [hlocd']; rw [hlocd] at hhead; exact hhead b hb'
        · exact c2
      · rw [e1, e2]; exact c3
      · rw [e1, e3]
        simp only [List.mem_cons]; right; exact c4
      · intro hmem
        simp only [openLocs, List.map_cons, List.mem_cons, hlocd] at hmem
        rw [e2, e3]
        rcases hmem with rfl | hmem
        · omega
        · obtain ⟨f1, f2⟩ := c5 hmem
          exact ⟨f1, by rw [f2]⟩
      · intro b
        rw [e2, e3]
        simp only [openLocs, List.map_cons, List.mem_cons, hlocd', hlocd]
        constructor
        · rintro (rfl | hb)
          · simp
          · rcases (c6 b).mp hb with rfl | hb'
            · simp
            · simp only [openLocs] at hb'
              tauto
        · rintro (hb | rfl | hb)
          · right; have := (c6 b).mpr (Or.inl hb); simpa [openLocs] using this
          · left; rfl
          · right; have := (c6 b).mpr (Or.inr (by simpa [openLocs] using hb))
            simpa [openLocs] using this
    · by_cases heql : l = loc
      · -- reuse the existing cell
        subst heql
        have hc1 : (cellAt cells id).location.gtStack l = false := by
          rw [hloc]; simp [UpvalueLoc.gtStack, hlt]
        have hc2 : (cellAt cells id).location.eqStack l = true := by
          rw [hloc]; simp [UpvalueLoc.eqStack]
        have heq : captureUpvalue cells l (id :: rest) = (id, cells, id :: rest) := by
          simp [captureUpvalue, hc1, hc2]
        have e1 : (captureUpvalue cells l (id :: rest)).1 = id := by rw [heq]
        have e2 : (captureUpvalue cells l (id :: rest)).2.1 = cells := by rw [heq]
        have e3 : (captureUpvalue cells l (id :: rest)).2.2 = id :: rest := by rw [heq]
        refine ⟨?_, ?_, ?_, ?_, fun _ => ⟨e2, e3⟩, ?_⟩
        · rw [e2, e3]; exact h1
        · rw [e2, e3]; exact h2
        · rw [e1, e2]; exact hlocd
        · rw [e1, e3]; simp
        · intro b
          rw [e2, e3]
          simp only [openLocs, List.map_cons, List.mem_cons, hlocd]
          tauto
      · -- insert a fresh cell in front
        have hllt : l < loc := by omega
        have hc1 : (cellAt cells id).location.gtStack loc = false := by
          rw [hloc]; simp [UpvalueLoc.gtStack]; omega
        have hc2 : (cellAt cells id).location.eqStack loc = false := by
          rw [hloc]; simp [UpvalueLoc.eqStack]; omega
        have heq : captureUpvalue cells loc (id :: rest) =
            (cells.length, cells ++ [⟨.stack loc, .nil⟩],
              cells.length :: id :: rest) := by
          simp [captureUpvalue, hc1, hc2]
        have hlens : ∀ i ∈ id :: rest, i < cells.length := fun i hi => (h1 i hi).1
        have hrest_pres : openLocs (cells ++ [⟨.stack loc, .nil⟩]) rest =
            openLocs cells rest :=
          openLocs_congr _ _ _ fun i hi =>
            cellLocD_append _ _ _ (hlens i (by simp [hi]))
        have hid_pres : cellLocD (cells ++ [⟨.stack loc, .nil⟩]) id = l := by
          rw [cellLocD_append _ _ _ hidlt, hlocd]
        have hnew : cellLocD (cells ++ [⟨.stack loc, .nil⟩]) cells.length = loc := by
          simp [cellLocD, cellAt_append_len]
        have e1 : (captureUpvalue cells loc (id :: rest)).1 = cells.length := by rw [heq]
        have e2 : (captureUpvalue cells loc (id :: rest)).2.1 =
            cells ++ [⟨.stack loc, .nil⟩] := by rw [heq]
        have e3 : (captureUpvalue cells loc (id :: rest)).2.2 =
            cells.length :: id :: rest := by rw [heq]
        refine ⟨?_, ?_, ?_, ?_, ?_, ?_⟩
        · rw [e2, e3]
          intro i hi
          simp only [List.mem_cons] at hi
          rcases hi with rfl | rfl | hi
          · refine ⟨by simp, ?_⟩
            rw [cellAt_append_len]; rfl
          · exact ⟨by simp; omega, by rw [cellAt_append_lt _ _ _ hidlt]; exact hstk⟩
          · have := h1 i (by simp [hi])
            exact ⟨by simp; omega, by rw [cellAt_append_lt _ _ _ this.1]; exact this.2⟩
        · rw [e2, e3]
          simp only [openLocs, List.map_cons, hnew, hid_pres]
          have : List.map (cellLocD (cells ++ [⟨.stack loc, .nil⟩])) rest =
              List.map (cellLocD cells) rest := hrest_pres
          rw [this, List.pairwise_cons]
          constructor
          · intro b hb
            simp only [List.mem_cons] at hb
            rcases hb with rfl | hb
            · exact hllt
            · have := hhead b hb
              rw [hlocd] at this
              omega
          · rw [← hlocd] at *
            exact h2c
        · rw [e1, e2]; exact hnew
        · rw [e1, e3]; simp
        · intro hmem
          exfalso
          simp only [openLocs, List.map_cons, List.mem_cons, hlocd] at hmem
          rcases hmem with rfl | hmem
          · omega
          · have := hhead loc hmem
            rw [hlocd] at this
            omega
        · intro b
          rw [e2, e3]
          simp only [openLocs, List.map_cons, List.mem_cons, hnew, hid_pres, hlocd]
          rw [show List.map (cellLocD (cells ++ [⟨.stack loc, .nil⟩])) rest =
              List.map (cellLocD cells) rest from hrest_pres]

theorem closeUpvalues_spec (stack : List Value) (last : Nat) (opens : List Nat) :
    ∀ cells, (∀ id ∈ opens, IsOpenId cells id) →
      (openLocs cells opens).Pairwise (· > ·) →
      CloseSpec cells opens stack last := by
  induction opens with
  | nil =>
    intro cells _ _
    exact ⟨⟨[], rfl⟩, by simp [closeUpvalues], by simp [closeUpvalues, openLocs]⟩
  | cons id rest ih =>
    intro cells h1 h2
    have hopen := h1 id (by simp)
    obtain ⟨hidlt, hstk⟩ := hopen
    obtain ⟨l, hloc⟩ : ∃ l, (cellAt cells id).location = .stack l := by
      cases hcase : (cellAt cells id).location with
      | stack l => exact ⟨l, rfl⟩
      | ownClosed => rw [hcase] at hstk; simp [UpvalueLoc.isStack] at hstk
    have hnodup : (id :: rest).Nodup := opens_nodup_of_pairwise cells _ h2
    have hid_notin : id ∉ rest := (List.nodup_cons.mp hnodup).1
    by_cases hge : (cellAt cells id).location.geStack last = true
    · have heq : closeUpvalues stack last cells (id :: rest) =
          closeUpvalues stack last (cells.set id ((cellAt cells id).close stack)) rest := by
        simp [closeUpvalues, hge]
      have hpres : ∀ i ∈ rest,
          cellAt (cells.set id ((cellAt cells id).close stack)) i = cellAt cells i := by
        intro i hi
        exact cellAt_set_ne _ _ _ _ (fun hji => hid_notin (hji ▸ hi))
      have h1' : ∀ i ∈ rest, IsOpenId (cells.set id ((cellAt cells id).close stack)) i := by
        intro i hi
        have := h1 i (by simp [hi])
        exact ⟨by simpa using this.1, by rw [hpres i hi]; exact this.2⟩
      have h2' : (openLocs (cells.set id ((cellAt cells id).close stack)) rest).Pairwise
          (· > ·) := by
        have : openLocs (cells.set id ((cellAt cells id).close stack)) rest =
            openLocs cells rest :=
          openLocs_congr _ _ _ fun i hi => by simp [cellLocD, hpres i hi]
        rw [this]
        exact h2.of_cons
      obtain ⟨⟨pre, hpre⟩, hc1, hc2⟩ := ih _ h1' h2'
      have e1 : (closeUpvalues stack last cells (id :: rest)).1 =
          (closeUpvalues stack last (cells.set id ((cellAt cells id).close stack)) rest).1 := by
        rw [heq]
      have e2 : (closeUpvalues stack last cells (id :: rest)).2 =
          (closeUpvalues stack last (cells.set id ((cellAt cells id).close stack)) rest).2 := by
        rw [heq]
      refine ⟨⟨id :: pre, ?_⟩, ?_, ?_⟩
      · rw [e2, List.cons_append, ← hpre]
      · rw [e1, e2]; exact hc1
      · rw [e1, e2]; exact hc2
    · have heq : closeUpvalues stack last cells (id :: rest) = (cells, id :: rest) := by
        simp [closeUpvalues, hge]
      have e1 : (closeUpvalues stack last cells (id :: rest)).1 = cells := by rw [heq]
      have e2 : (closeUpvalues stack last cells (id :: rest)).2 = id :: rest := by
        rw [heq]
      refine ⟨⟨[], ?_⟩, ?_, ?_⟩
      · rw [e2]; rfl
      · rw [e1, e2]; exact h1
      · rw [e1, e2]; exact h2

/-- Claim C6: in every well-formed VM state (open-list cells allocated and
open, pointed-at stack indices strictly descending), `capture_upvalue`
preserves the invariant, reusing the unique existing cell for an
already-captured slot and otherwise inserting the new cell at the position
that keeps the list strictly descending; there is at most one open cell per
stack slot (the location list is duplicate-free); and `close_upvalues`
detaches exactly a prefix of the list, preserving the invariant. -/
theorem open_upvalue_list_invariant (cells : List UpvCell) (opens : List Nat)
    (loc last : Nat) (stack : List Value) (hwf : OpensWF cells opens) :
    CaptureSpec cells opens loc ∧ (openLocs cells opens).Nodup ∧ opens.Nodup ∧
      CloseSpec cells opens stack last :=
  ⟨captureUpvalue_spec loc opens cells hwf.1 hwf.2,
   hwf.2.imp fun hab => ne_of_gt hab,
   opens_nodup_of_pairwise cells opens hwf.2,
   closeUpvalues_spec stack last opens cells hwf.1 hwf.2⟩

/-- Witness for C6 at a concrete well-formed state: two open cells at stack
slots 5 and 2, capturing slot 3 and closing from slot 4. -/
theorem open_upvalue_list_invariant_witness :
    OpensWF [⟨.stack 5, .nil⟩, ⟨.stack 2, .nil⟩] [0, 1] ∧
      (CaptureSpec [⟨.stack 5, .nil⟩, ⟨.stack 2, .nil⟩] [0, 1] 3 ∧
        (openLocs [⟨.stack 5, .nil⟩, ⟨.stack 2, .nil⟩] [0, 1]).Nodup ∧
        ([0, 1] : List Nat).Nodup ∧
        CloseSpec [⟨.stack 5, .nil⟩, ⟨.stack 2, .nil⟩] [0, 1] [] 4) :=
  ⟨by decide, open_upvalue_list_invariant _ _ 3 4 [] (by decide)⟩

/-! ## Compiler upvalue bookkeeping (compiler.rs:20-24, 82-95) -/

/-- A compiler upvalue record (compiler.rs:20-24). -/
structure CUpvalue where
  index : Nat
  is_local : Bool
deriving DecidableEq

/-- The upvalue-related part of a `Compiler` (compiler.rs:26-33):
its `upvalues` vector and the function's `upvalue_count`. -/
structure CompilerUp where
  upvalues : List CUpvalue
  upvalue_count : Nat
deriving DecidableEq

/-- `Compiler::add_upvalue` (compiler.rs:82-95), exactly as written.  In the
source the loop `for (index, upvalue) in self.upvalues.iter().enumerate()`
binds a loop variable `index` that shadows the `index` parameter, so the
dedup test compares `upvalue.index` with the POSITION of the entry in the
vector (here `p.1` of the enumerated pair), not with the requested index, and
on a match it returns `upvalue.index`.  Otherwise it pushes the new entry,
bumps `upvalue_count`, and returns `len - 1` if it fits in a u8. -/
def add_upvalue (c : CompilerUp) (index : Nat) (is_local : Bool) :
    CompilerUp × Except String Nat :=
  match c.upvalues.enum.find? (fun p => p.2.index == p.1 && p.2.is_local == is_local) with
  | some p => (c, .ok p.2.index)
  | none =>
    let c2 : CompilerUp := ⟨c.upvalues ++ [⟨index, is_local⟩], c.upvalue_count + 1⟩
    if c2.upvalues.length - 1 ≤ 255 then (c2, .ok (c2.upvalues.length - 1))
    else (c2, .error "Too many closure variables in function.")

/-- Claim C5: the claim requires that recording an upvalue whose
(index, is_local) pair is already present returns the existing slot and
leaves the upvalue vector and `upvalue_count` unchanged, so no function holds
two equal entries.  With the vector already holding the entry (index 1,
local) — as after `fun a() { var x = 1; fun b() { x; x; } }`, where both
references of `x` in b resolve to the same local slot 1 of a — requesting
(1, local) again fails the shadowed dedup test (1 ≠ position 0), pushes a
duplicate entry and bumps the count to 2. -/
theorem add_upvalue_pushes_duplicate_entry :
    add_upvalue ⟨[⟨1, true⟩], 1⟩ 1 true = (⟨[⟨1, true⟩, ⟨1, true⟩], 2⟩, .ok 1) ∧
    ¬ ([CUpvalue.mk 1 true, CUpvalue.mk 1 true].Nodup) := by
  exact ⟨rfl, by decide⟩

/-! ## Globals and the Set/Get instruction handlers
(vm.rs:141-163, 352-404) -/

/-- The globals table `HashMap<&'static str, Value>`, as its lookup
function. -/
def Globals := String → Option Value

/-- `HashMap::insert`: returns the previous binding and the updated table. -/
def Globals.insert (g : Globals) (k : String) (v : Value) : Option Value × Globals :=
  (g k, fun x => if x = k then some v else g x)

/-- `HashMap::remove` (table effect only). -/
def Globals.remove (g : Globals) (k : String) : Globals :=
  fun x => if x = k then none else g x

/-- The VM-state components the Get/Set/Define handlers touch. -/
structure GvmState where
  stack : List Value
  stack_count : Nat
  globals : Globals

/-- `VM::peek` (vm.rs:157-163): `stack.get(stack_count - 1 - index)` on the
fixed stack array; when `stack_count < index + 1` the usize subtraction wraps
far past the array and `get` yields None. -/
def vmPeek (s : GvmState) (i : Nat) : Option Value :=
  if s.stack_count < i + 1 then none
  else s.stack.get? (s.stack_count - 1 - i)

/-- `VM::pop` (vm.rs:147-155): `mem::take` leaves Nil in the vacated slot. -/
def vmPop (s : GvmState) : Option (Value × GvmState) :=
  if s.stack_count = 0 then none
  else some (s.stack.getD (s.stack_count - 1) .nil,
    { s with stack := s.stack.set (s.stack_count - 1) .nil,
             stack_count := s.stack_count - 1 })

/-- `VM::push` (vm.rs:141-145). -/
def vmPush (s : GvmState) (v : Value) : GvmState :=
  { s with stack := s.stack.set s.stack_count v,
           stack_count := s.stack_count + 1 }

/-- Outcome of one instruction handler: success, a runtime error (the
`runtime_error` path resets the stack but leaves the globals table, carried
here), or an internal error (pop/peek on an empty stack). -/
inductive OpOutcome where
  | ok (s : GvmState)
  | runtimeError (msg : String) (globals : Globals)
  | internalError (msg : String)

/-- `Op::GetGlobal` handler (vm.rs:362-374). -/
def opGetGlobal (s : GvmState) (name : String) : OpOutcome :=
  match s.globals name with
  | some v => .ok (vmPush s v)
  | none => .runtimeError ("Undefined variable '" ++ name ++ "'.") s.globals

/-- `Op::DefineGlobal` handler (vm.rs:375-379): pops the value and inserts
it, overwriting any previous binding. -/
def opDefineGlobal (s : GvmState) (name : String) : OpOutcome :=
  match vmPop s with
  | none => .internalError "Can't pop on empty stack."
  | some (v, s2) => .ok { s2 with globals := (s2.globals.insert name v).2 }

/-- `Op::SetGlobal` handler (vm.rs:380-388): inserts the peeked value; if
there was no previous binding, removes it again and raises the runtime
error. -/
def opSetGlobal (s : GvmState) (name : String) : OpOutcome :=
  match vmPeek s 0 with
  | none => .internalError "Can't peek on empty stack."
  | some v =>
    match s.globals.insert name v with
    | (none, g2) => .runtimeError ("Undefined variable '" ++ name ++ "'.") (g2.remove name)
    | (some _, g2) => .ok { s with globals := g2 }

/-- `Op::SetLocal` handler (vm.rs:357-361): writes the peeked top of stack
into `stack[slot + frame.starts_at]`, popping nothing. -/
def opSetLocal (s : GvmState) (slot offset : Nat) : OpOutcome :=
  match vmPeek s 0 with
  | none => .internalError "Can't peek on empty stack."
  | some v => .ok { s with stack := s.stack.set (slot + offset) v }

/-- `Op::SetUpvalue` handler (vm.rs:396-404) with the addressed cell passed
explicitly; the value stack is not modified at all. -/
def opSetUpvalueInstr (s : GvmState) (u : UpvCell) : Option (GvmState × UpvCell) :=
  match vmPeek s 0 with
  | none => none
  | some v => some (s, opSetUpvalue u v)

theorem vmPeek_top (s : GvmState) (hc : 1 ≤ s.stack_count)
    (hs : s.stack_count ≤ s.stack.length) :
    vmPeek s 0 = some (s.stack.getD (s.stack_count - 1) .nil) := by
  simp only [vmPeek, if_neg (by omega : ¬ s.stack_count < 0 + 1)]
  rw [List.get?_eq_get (by omega : s.stack_count - 1 - 0 < s.stack.length)]
  show _ = some ((s.stack.get? (s.stack_count - 1)).getD Value.nil)
  rw [List.get?_eq_get (by omega : s.stack_count - 1 < s.stack.length)]
  rfl

/-- What claim C7 says about SetLocal: the stack count, the top value, and
every slot other than the target are unchanged; the target receives the top
value; the globals are untouched. -/
def C7SetLocalSpec (s : GvmState) (slot offset : Nat) : Prop :=
  ∃ s2, opSetLocal s slot offset = .ok s2 ∧
    s2.stack_count = s.stack_count ∧
    s2.stack.length = s.stack.length ∧
    s2.stack.getD (s.stack_count - 1) .nil = s.stack.getD (s.stack_count - 1) .nil ∧
    (∀ j, j ≠ slot + offset → s2.stack.getD j .nil = s.stack.getD j .nil) ∧
    s2.stack.getD (slot + offset) .nil = s.stack.getD (s.stack_count - 1) .nil ∧
    s2.globals = s.globals

/-- What claim C7 says about SetUpvalue and SetGlobal: the stack component of
the state is returned identically (same count, same every slot); the written
target holds the top value. -/
def C7SetOthersSpec (s : GvmState) (u : UpvCell) (name : String) : Prop :=
  (∃ u2, opSetUpvalueInstr s u = some (s, u2) ∧
    u2.closed = s.stack.getD (s.stack_count - 1) .nil) ∧
  (∀ v, s.globals name = some v →
    ∃ s2, opSetGlobal s name = .ok s2 ∧ s2.stack = s.stack ∧
      s2.stack_count = s.stack_count ∧
      s2.globals name = some (s.stack.getD (s.stack_count - 1) .nil))

/-- Claim C7: SetLocal, SetUpvalue, and SetGlobal (in its success case) have
expression semantics at the instruction level — each writes the value peeked
at the top of the stack to its target and leaves the stack unchanged: same
stack_count, same top value, and every slot other than SetLocal's target slot
unchanged. -/
theorem set_instructions_expression_stack_effect (s : GvmState) (u : UpvCell)
    (name : String) (slot offset : Nat) (hc : 1 ≤ s.stack_count)
    (hs : s.stack_count ≤ s.stack.length) (ht : slot + offset < s.stack.length) :
    C7SetLocalSpec s slot offset ∧ C7SetOthersSpec s u name := by
  have hpeek := vmPeek_top s hc hs
  constructor
  · have hrun : opSetLocal s slot offset = .ok { s with stack := s.stack.set (slot + offset) (s.stack.getD (s.stack_count - 1) Value.nil) } := by
      simp only [opSetLocal, hpeek]
    refine ⟨_, hrun, rfl, by simp, ?_, ?_, ?_, rfl⟩
    · by_cases htop : s.stack_count - 1 = slot + offset
      · show ((s.stack.set (slot + offset) _).get? (s.stack_count - 1)).getD .nil = _
        rw [htop, List.get?_set_eq_of_lt _ ht]
        rfl
      · show ((s.stack.set (slot + offset) _).get? (s.stack_count - 1)).getD .nil = _
        rw [List.get?_set_ne _ _ (fun h => htop h.symm)]
        rfl
    · intro j hj
      show ((s.stack.set (slot + offset) _).get? j).getD .nil = _
      rw [List.get?_set_ne _ _ (fun h => hj h.symm)]
      rfl
    · show ((s.stack.set (slot + offset) _).get? (slot + offset)).getD .nil = _
      rw [List.get?_set_eq_of_lt _ ht]
      rfl
  · constructor
    · refine ⟨opSetUpvalue u (s.stack.getD (s.stack_count - 1) Value.nil), ?_, rfl⟩
      simp only [opSetUpvalueInstr, hpeek]
    · intro v hvv
      have hrun : opSetGlobal s name = .ok { s with globals := (fun x => if x = name then some (s.stack.getD (s.stack_count - 1) Value.nil) else s.globals x) } := by
        simp only [opSetGlobal, hpeek, Globals.insert, hvv]
      refine ⟨_, hrun, rfl, rfl, ?_⟩
      simp

/-- Witness for C7 at a concrete state: stack [7] with one live slot,
targeting local slot 0 and a closed upvalue cell. -/
theorem set_instructions_expression_stack_effect_witness :
    (1 ≤ 1 ∧ 1 ≤ 1 ∧ 0 + 0 < 1) ∧
      (C7SetLocalSpec ⟨[Value.number 7], 1, fun _ => some Value.nil⟩ 0 0 ∧
        C7SetOthersSpec ⟨[Value.number 7], 1, fun _ => some Value.nil⟩
          ⟨.ownClosed, .nil⟩ "x") :=
  ⟨⟨by decide, by decide, by decide⟩,
    set_instructions_expression_stack_effect _ ⟨.ownClosed, .nil⟩ "x" 0 0
      (by decide) (by decide) (by decide)⟩

theorem Globals.remove_insert_self (g : Globals) (k : String) (v : Value)
    (h : g k = none) :
    Globals.remove (fun x => if x = k then some v else g x) k = g := by
  funext x
  simp only [Globals.remove]
  by_cases hx : x = k
  · rw [if_pos hx, hx, h]
  · rw [if_neg hx, if_neg hx]

/-- What claim C8 says about GetGlobal, SetGlobal, and DefineGlobal of one
state: the two reads raise exactly the "Undefined variable" runtime error
when the name is unbound, with the globals table carried unchanged; when it
is bound, both succeed; DefineGlobal succeeds (given a non-empty stack, as
the compiler guarantees), binds the popped top value, touches no other
binding, and pops. -/
def C8Spec (s : GvmState) (name : String) : Prop :=
  (s.globals name = none →
    opGetGlobal s name = .runtimeError ("Undefined variable '" ++ name ++ "'.") s.globals ∧
    opSetGlobal s name = .runtimeError ("Undefined variable '" ++ name ++ "'.") s.globals) ∧
  (∀ v, s.globals name = some v →
    (∃ s2, opGetGlobal s name = .ok s2 ∧ s2.globals = s.globals) ∧
    (∃ s2, opSetGlobal s name = .ok s2)) ∧
  (∃ s2, opDefineGlobal s name = .ok s2 ∧
    s2.globals name = some (s.stack.getD (s.stack_count - 1) .nil) ∧
    (∀ k, k ≠ name → s2.globals k = s.globals k) ∧
    s2.stack_count = s.stack_count - 1)

/-- Claim C8: GetGlobal and SetGlobal produce the runtime error
"Undefined variable '<name>'." exactly when the name is absent from the
globals table, and on that error the table is unchanged (SetGlobal's
insert-then-remove restores it); DefineGlobal never errors — it creates or
overwrites the binding with the popped value. -/
theorem global_ops_error_iff_unbound (s : GvmState) (name : String)
    (hc : 1 ≤ s.stack_count) (hs : s.stack_count ≤ s.stack.length) :
    C8Spec s name := by
  have hpeek := vmPeek_top s hc hs
  refine ⟨?_, ?_, ?_⟩
  · intro hnone
    constructor
    · simp only [opGetGlobal, hnone]
    · simp only [opSetGlobal, hpeek, Globals.insert, hnone]
      rw [Globals.remove_insert_self s.globals name _ hnone]
  · intro v hv
    constructor
    · exact ⟨vmPush s v, by simp only [opGetGlobal, hv], rfl⟩
    · refine ⟨{ s with globals := fun x => if x = name then some (s.stack.getD (s.stack_count - 1) Value.nil) else s.globals x }, ?_⟩
      simp only [opSetGlobal, hpeek, Globals.insert, hv]
  · have hpop : vmPop s = some (s.stack.getD (s.stack_count - 1) .nil,
        { s with stack := s.stack.set (s.stack_count - 1) .nil,
                 stack_count := s.stack_count - 1 }) := by
      simp only [vmPop, if_neg (by omega : ¬ s.stack_count = 0)]
    refine ⟨{ stack := s.stack.set (s.stack_count - 1) Value.nil, stack_count := s.stack_count - 1, globals := fun x => if x = name then some (s.stack.getD (s.stack_count - 1) Value.nil) else s.globals x }, ?_, ?_, ?_, rfl⟩
    · simp only [opDefineGlobal, hpop, Globals.insert]
    · simp
    · intro k hk
      simp [hk]

/-- Witness for C8 at a concrete state: stack [2], one live slot, empty
globals table, name "x". -/
theorem global_ops_error_iff_unbound_witness :
    (1 ≤ 1 ∧ 1 ≤ 1) ∧ C8Spec ⟨[Value.number 2], 1, fun _ => none⟩ "x" :=
  ⟨⟨by decide, by decide⟩,
    global_ops_error_iff_unbound ⟨[Value.number 2], 1, fun _ => none⟩ "x"
      (by decide) (by decide)⟩

/-! ## The string interner (src/string.rs) -/

/-- An interned-string handle (string.rs:6-7): a plain index. -/
structure Handle where
  id : Nat
deriving DecidableEq

/-- Interner state (string.rs:37-41).  `handle_map` is maintained by
`intern` in sync with `strings` as the first-occurrence index, so it is
represented by lookup in `strings`. -/
structure Interner where
  strings : List String
deriving DecidableEq

/-- `handle_map.get(string)`: the index of the first occurrence. -/
def lookupHandle : List String → String → Option Nat
  | [], _ => none
  | x :: xs, s => if x = s then some 0 else (lookupHandle xs s).map (· + 1)

/-- `Interner::intern` (string.rs:48-58): return the existing handle, or
push the string and hand out `Handle(strings.len())`. -/
def Interner.intern (it : Interner) (s : String) : Handle × Interner :=
  match lookupHandle it.strings s with
  | some i => (⟨i⟩, it)
  | none => (⟨it.strings.length⟩, ⟨it.strings ++ [s]⟩)

/-- `Interner::get` / `Handle::as_str` (string.rs:10-16, 60-62). -/
def Interner.get (it : Interner) (h : Handle) : String :=
  it.strings.getD h.id ""

/-- `impl Add for &Handle` (string.rs:23-29): format the two strings one
after the other and re-intern the result. -/
def Handle.add (it : Interner) (a b : Handle) : Handle × Interner :=
  it.intern (it.get a ++ it.get b)

theorem lookupHandle_getD (s : String) :
    ∀ (l : List String) (i : Nat), lookupHandle l s = some i → l.getD i "" = s := by
  intro l
  induction l with
  | nil => intro i h; simp [lookupHandle] at h
  | cons x xs ih =>
    intro i h
    simp only [lookupHandle] at h
    by_cases hx : x = s
    · rw [if_pos hx] at h
      obtain rfl : (0 : Nat) = i := Option.some.inj h
      simpa using hx
    · rw [if_neg hx] at h
      cases hj : lookupHandle xs s with
      | none => rw [hj] at h; simp at h
      | some j =>
        rw [hj] at h
        simp only [Option.map_some'] at h
        obtain rfl : j + 1 = i := Option.some.inj h
        simpa using ih j hj

theorem lookupHandle_lt (s : String) :
    ∀ (l : List String) (i : Nat), lookupHandle l s = some i → i < l.length := by
  intro l
  induction l with
  | nil => intro i h; simp [lookupHandle] at h
  | cons x xs ih =>
    intro i h
    simp only [lookupHandle] at h
    by_cases hx : x = s
    · rw [if_pos hx] at h
      obtain rfl : (0 : Nat) = i := Option.some.inj h
      simp
    · rw [if_neg hx] at h
      cases hj : lookupHandle xs s with
      | none => rw [hj] at h; simp at h
      | some j =>
        rw [hj] at h
        simp only [Option.map_some'] at h
        obtain rfl : j + 1 = i := Option.some.inj h
        have := ih j hj
        simp
        omega

theorem lookupHandle_append_self (s : String) :
    ∀ l : List String, lookupHandle l s = none →
      lookupHandle (l ++ [s]) s = some l.length := by
  intro l
  induction l with
  | nil => intro _; simp [lookupHandle]
  | cons x xs ih =>
    intro h
    simp only [lookupHandle] at h
    by_cases hx : x = s
    · rw [if_pos hx] at h; simp at h
    · rw [if_neg hx] at h
      have hxs : lookupHandle xs s = none := by
        cases hj : lookupHandle xs s with
        | none => rfl
        | some j => rw [hj] at h; simp at h
      rw [List.cons_append]
      simp only [lookupHandle, if_neg hx]
      rw [ih hxs]
      simp

theorem Interner.intern_get (it : Interner) (s : String) :
    (it.intern s).2.get (it.intern s).1 = s := by
  unfold Interner.intern
  cases hj : lookupHandle it.strings s with
  | some i =>
    simpa [Interner.get] using lookupHandle_getD s it.strings i hj
  | none =>
    simp only [Interner.get]
    rw [List.getD_append_right _ _ _ _ (le_refl _)]
    simp

theorem Interner.intern_id_lt (it : Interner) (s : String) :
    (it.intern s).1.id < (it.intern s).2.strings.length := by
  unfold Interner.intern
  cases hj : lookupHandle it.strings s with
  | some i => simpa using lookupHandle_lt s it.strings i hj
  | none => simp

theorem Interner.intern_preserves_get (it : Interner) (s : String) (h : Handle)
    (hlt : h.id < it.strings.length) : (it.intern s).2.get h = it.get h := by
  unfold Interner.intern
  cases hj : lookupHandle it.strings s with
  | some i => rfl
  | none =>
    simp only [Interner.get]
    exact List.getD_append _ _ _ _ hlt

theorem Interner.intern_twice (it : Interner) (s : String) :
    (it.intern s).2.intern s = ((it.intern s).1, (it.intern s).2) := by
  unfold Interner.intern
  cases hj : lookupHandle it.strings s with
  | some i => simp [hj]
  | none => simp [hj, lookupHandle_append_self s it.strings hj]

/-- Claim C9: interning is handle identity on byte sequences, and
concatenation of handles is interning of the concatenation.  For any interner
state, intern s and then t: the two handles coincide exactly when s = t
(equal strings intern to the same handle, distinct strings to distinct
handles), and adding the two handles in the resulting state yields exactly
`from_str(s ++ t)` there. -/
theorem intern_handle_identity_and_concat (it : Interner) (s t : String) :
    ((it.intern s).1 = ((it.intern s).2.intern t).1 ↔ s = t) ∧
    Handle.add ((it.intern s).2.intern t).2 (it.intern s).1
        ((it.intern s).2.intern t).1 =
      ((it.intern s).2.intern t).2.intern (s ++ t) := by
  have hg1 : (it.intern s).2.get (it.intern s).1 = s := Interner.intern_get it s
  have hl1 : (it.intern s).1.id < (it.intern s).2.strings.length :=
    Interner.intern_id_lt it s
  have hg1' : ((it.intern s).2.intern t).2.get (it.intern s).1 = s := by
    rw [Interner.intern_preserves_get _ t _ hl1, hg1]
  have hg2 : ((it.intern s).2.intern t).2.get ((it.intern s).2.intern t).1 = t :=
    Interner.intern_get (it.intern s).2 t
  constructor
  · constructor
    · intro h
      calc s = ((it.intern s).2.intern t).2.get (it.intern s).1 := hg1'.symm
        _ = ((it.intern s).2.intern t).2.get ((it.intern s).2.intern t).1 := by rw [h]
        _ = t := hg2
    · intro h
      subst h
      have := congrArg Prod.fst (Interner.intern_twice it s)
      exact this.symm
  · show ((it.intern s).2.intern t).2.intern
        (((it.intern s).2.intern t).2.get (it.intern s).1 ++
          ((it.intern s).2.intern t).2.get ((it.intern s).2.intern t).1) = _
    rw [hg1', hg2]

/-! ## The parser (parser.rs, scanner.rs:5-59, expr.rs, stmt.rs)

The recursive-descent parser is embedded with an explicit fuel argument:
every Rust recursion and `while` loop decreases fuel by one, so all
definitions are structural; fuel 0 returns the error result `(none, p)`.
The theorems below always run with ample fuel.  Tokens carry their kind,
line and lexeme; AST nodes keep the tokens the parser stores in them.
Two cross-file discrepancies of the sources, noted for fidelity: parser.rs
builds `Expr::Grouping` and a `stmt::Block` without a `brace` field, while
expr.rs/stmt.rs as given lack the former and require the latter; the
embedding follows parser.rs (a `grouping` constructor, a block of plain
statements). -/

/-- TokenKind (scanner.rs:5-52); keyword kinds carry a Kw suffix where the
Rust name is a Lean keyword. -/
inductive TokenKind where
  | leftParen | rightParen | leftBrace | rightBrace | comma | dot | minus | plus
  | semicolon | slash | star
  | bang | bangEqual | equal | equalEqual
  | greater | greaterEqual | less | lessEqual
  | identifier | string | number
  | andKw | breakKw | classKw | continueKw | elseKw | falseKw | forKw | funKw
  | ifKw | nilKw | orKw | printKw | returnKw | superKw | thisKw | trueKw
  | varKw | whileKw
  | error
deriving DecidableEq

/-- Token (scanner.rs:54-59). -/
structure Token where
  kind : TokenKind
  line : Int
  lexeme : String
deriving DecidableEq

instance : Inhabited Token := ⟨⟨.error, 0, ""⟩⟩

/-- Expr (expr.rs:47-55 plus the Grouping node parser.rs constructs);
`Variable` is `varRef` (`variable` is a Lean keyword). -/
inductive Expr where
  | assign (name : Token) (value : Expr)
  | binary (left : Expr) (operator : Token) (right : Expr)
  | call (callee : Expr) (paren : Token) (args : List Expr)
  | literal (value : Token)
  | logical (left : Expr) (operator : Token) (right : Expr)
  | unary (operator : Token) (right : Expr)
  | varRef (name : Token)
  | grouping (e : Expr)

/-- FunctionKind (stmt.rs:33-37). -/
inductive FunctionKind where
  | script
  | function
deriving DecidableEq

/-- The parser's `Loop` enum (parser.rs:5-10). -/
inductive LoopKind where
  | none
  | whileLoop
  | forLoop
deriving DecidableEq

/-- Stmt (stmt.rs:79-92); Break/Continue parsing is commented out in the
source, so those nodes are never produced. -/
inductive Stmt where
  | block (statements : List Stmt)
  | breakStmt (keyword : Token)
  | continueStmt (keyword : Token)
  | expression (e : Expr)
  | forStmt (initializer : Option Stmt) (condition : Option Expr)
      (increment : Option Expr) (body : Stmt)
  | function (name : Token) (params : List Token) (body : List Stmt)
      (kind : FunctionKind) (brace : Token)
  | ifStmt (condition : Expr) (then_branch : Stmt) (else_branch : Option Stmt)
  | print (keyword : Token) (e : Expr)
  | returnStmt (keyword : Token) (value : Option Expr)
  | var (name : Token) (initializer : Option Expr)
  | whileStmt (condition : Expr) (body : Stmt)

/-- Parser state (parser.rs:12-21). -/
structure Parser where
  tokens : List Token
  current : Nat
  last_line : Int
  had_error : Bool
  panic_mode : Bool
  function_kind : FunctionKind
  loop_kind : LoopKind

/-- `Parser::new` (parser.rs:26-36).  `tokens.last().unwrap()` panics on an
empty token list; the embedding defaults the line, which no theorem below
depends on. -/
def Parser.new (tokens : List Token) : Parser :=
  { tokens := tokens, current := 0,
    last_line := (tokens.getLast?.map Token.line).getD 0,
    had_error := false, panic_mode := false,
    function_kind := .script, loop_kind := .none }

/-- `Parser::peek` (parser.rs:38-40). -/
def Parser.peek (p : Parser) : Option Token := p.tokens.get? p.current

/-- `Parser::is_at_end` (parser.rs:42-44). -/
def Parser.is_at_end (p : Parser) : Bool := p.peek.isNone

/-- `Parser::previous` (parser.rs:46-48): `current - 1` underflows to a huge
index when current = 0, so `get` yields None there. -/
def Parser.previous (p : Parser) : Option Token :=
  if p.current = 0 then none else p.tokens.get? (p.current - 1)

/-- `Parser::advance` (parser.rs:50-55); the returned token is
`previous().unwrap()`, which is always present where the parser calls it. -/
def Parser.advance (p : Parser) : Token × Parser :=
  let p2 := if p.is_at_end then p else { p with current := p.current + 1 }
  (p2.previous.getD default, p2)

/-- `Parser::check` (parser.rs:57-62). -/
def Parser.check (p : Parser) (desired : TokenKind) : Bool :=
  match p.peek with
  | some t => t.kind == desired
  | none => false

/-- `Parser::match_current` (parser.rs:64-71). -/
def Parser.match_current (p : Parser) (kind : TokenKind) : Bool × Parser :=
  if p.check kind then (true, (p.advance).2) else (false, p)

/-- `Parser::error` (parser.rs:73-95): printing aside, it sets `panic_mode`
and `had_error` unless already panicking. -/
def Parser.error (p : Parser) (tok : Option Token) (message : String) : Parser :=
  if p.panic_mode then p
  else { p with panic_mode := true, had_error := true }

/-- `Parser::consume` (parser.rs:97-105). -/
def Parser.consume (p : Parser) (kind : TokenKind) (message : String) :
    Option Token × Parser :=
  if p.check kind then
    let r := p.advance
    (some r.1, r.2)
  else (none, p.error p.peek message)

/-- The token kinds the literal arm of `Parser::primary` matches
(parser.rs:510-521). -/
def TokenKind.isLiteralStart : TokenKind → Bool
  | .falseKw | .trueKw | .nilKw | .number | .string => true
  | _ => false

mutual

/-- `Parser::declaration` (parser.rs:107-116). -/
def Parser.declaration : Nat → Parser → Option Stmt × Parser
  | 0, p => (none, p)
  | fuel + 1, p =>
    let m := p.match_current .funKw
    if m.1 then Parser.function fuel .function m.2
    else
      let m2 := m.2.match_current .varKw
      if m2.1 then Parser.var_declaration fuel m2.2
      else Parser.statement fuel m2.2

/-- `Parser::function` (parser.rs:118-156). -/
def Parser.function : Nat → FunctionKind → Parser → Option Stmt × Parser
  | 0, _, p => (none, p)
  | fuel + 1, kind, p =>
    let enclosing_kind := p.function_kind
    let p := { p with function_kind := kind }
    match p.consume .identifier "Expect function name." with
    | (none, p) => (none, p)
    | (some name, p) =>
      match p.consume .leftParen "Expect '(' after function name" with
      | (none, p) => (none, p)
      | (some _, p) =>
        match (if p.check .rightParen then (some [], p)
               else Parser.paramsLoop fuel p []) with
        | (none, p) => (none, p)
        | (some params, p) =>
          match p.consume .rightParen "Expect ')' after parameters." with
          | (none, p) => (none, p)
          | (some _, p) =>
            match p.consume .leftBrace "Expect '\x7b' before function body." with
            | (none, p) => (none, p)
            | (some _, p) =>
              match Parser.block fuel p [] with
              | (none, p) => (none, p)
              | (some body, p) =>
                let p := { p with function_kind := enclosing_kind }
                (some (.function name params body kind (p.previous.getD default)), p)

/-- The parameter loop of `Parser::function` (parser.rs:128-140). -/
def Parser.paramsLoop : Nat → Parser → List Token → Option (List Token) × Parser
  | 0, p, _ => (none, p)
  | fuel + 1, p, params =>
    let p := if params.length ≥ 255 then
        p.error p.peek "Can't have more than 255 parameters."
      else p
    match p.consume .identifier "Expect parameter name." with
    | (none, p) => (none, p)
    | (some tok, p) =>
      let params := params ++ [tok]
      let m := p.match_current .comma
      if m.1 then Parser.paramsLoop fuel m.2 params
      else (some params, m.2)

/-- `Parser::statement` (parser.rs:158-184). -/
def Parser.statement : Nat → Parser → Option Stmt × Parser
  | 0, p => (none, p)
  | fuel + 1, p =>
    let m := p.match_current .forKw
    if m.1 then Parser.for_statement fuel m.2 else
    let m := m.2.match_current .ifKw
    if m.1 then Parser.if_statement fuel m.2 else
    let m := m.2.match_current .printKw
    if m.1 then Parser.print_statement fuel m.2 else
    let m := m.2.match_current .returnKw
    if m.1 then Parser.return_statement fuel m.2 else
    let m := m.2.match_current .whileKw
    if m.1 then Parser.while_statement fuel m.2 else
    let m := m.2.match_current .leftBrace
    if m.1 then Parser.block_statement fuel m.2 else
    Parser.expression_statement fuel m.2

/-- `Parser::var_declaration` (parser.rs:186-200). -/
def Parser.var_declaration : Nat → Parser → Option Stmt × Parser
  | 0, p => (none, p)
  | fuel + 1, p =>
    match p.consume .identifier "Expect variable name." with
    | (none, p) => (none, p)
    | (some name, p) =>
      let m := p.match_current .equal
      if m.1 then
        match Parser.expression fuel m.2 with
        | (none, p) => (none, p)
        | (some e, p) =>
          match p.consume .semicolon "Expect ';' after variable declaration." with
          | (none, p) => (none, p)
          | (some _, p) => (some (.var name (some e)), p)
      else
        match m.2.consume .semicolon "Expect ';' after variable declaration." with
        | (none, p) => (none, p)
        | (some _, p) => (some (.var name none), p)

/-- `Parser::for_statement` (parser.rs:202-238). -/
def Parser.for_statement : Nat → Parser → Option Stmt × Parser
  | 0, p => (none, p)
  | fuel + 1, p =>
    match p.consume .leftParen "Expect '(' after 'for'." with
    | (none, p) => (none, p)
    | (some _, p) =>
      let mSemi := p.match_current .semicolon
      match (if mSemi.1 then (some none, mSemi.2)
             else
               let mVar := mSemi.2.match_current .varKw
               if mVar.1 then
                 match Parser.var_declaration fuel mVar.2 with
                 | (none, p) => (none, p)
                 | (some st, p) => (some (some st), p)
               else
                 match Parser.expression_statement fuel mVar.2 with
                 | (none, p) => (none, p)
                 | (some st, p) => (some (some st), p)) with
      | (none, p) => (none, p)
      | (some initializer, p) =>
        match (if !p.check .semicolon then
                 match Parser.expression fuel p with
                 | (none, p) => (none, p)
                 | (some e, p) => (some (some e), p)
               else (some none, p)) with
        | (none, p) => (none, p)
        | (some condition, p) =>
          match p.consume .semicolon "Expect ';' after loop condition." with
          | (none, p) => (none, p)
          | (some _, p) =>
            match (if !p.check .rightParen then
                     match Parser.expression fuel p with
                     | (none, p) => (none, p)
                     | (some e, p) => (some (some e), p)
                   else (some none, p)) with
            | (none, p) => (none, p)
            | (some increment, p) =>
              match p.consume .rightParen "Expect ')' after for clauses" with
              | (none, p) => (none, p)
              | (some _, p) =>
                let enclosing_loop := p.loop_kind
                let p := { p with loop_kind := .forLoop }
                match Parser.statement fuel p with
                | (none, p) => (none, p)
                | (some body, p) =>
                  let p := { p with loop_kind := enclosing_loop }
                  (some (.forStmt initializer condition increment body), p)

/-- `Parser::if_statement` (parser.rs:240-257). -/
def Parser.if_statement : Nat → Parser → Option Stmt × Parser
  | 0, p => (none, p)
  | fuel + 1, p =>
    match p.consume .leftParen "Expect '(' after 'if'." with
    | (none, p) => (none, p)
    | (some _, p) =>
      match Parser.expression fuel p with
      | (none, p) => (none, p)
      | (some condition, p) =>
        match p.consume .rightParen "Expect ')' after condition." with
        | (none, p) => (none, p)
        | (some _, p) =>
          match Parser.statement fuel p with
          | (none, p) => (none, p)
          | (some then_branch, p) =>
            let m := p.match_current .elseKw
            if m.1 then
              match Parser.statement fuel m.2 with
              | (none, p) => (none, p)
              | (some else_branch, p) =>
                (some (.ifStmt condition then_branch (some else_branch)), p)
            else (some (.ifStmt condition then_branch none), m.2)

/-- `Parser::print_statement` (parser.rs:259-267). -/
def Parser.print_statement : Nat → Parser → Option Stmt × Parser
  | 0, p => (none, p)
  | fuel + 1, p =>
    let keyword := p.previous.getD default
    match Parser.expression fuel p with
    | (none, p) => (none, p)
    | (some e, p) =>
      match p.consume .semicolon "Expect ';' after value." with
      | (none, p) => (none, p)
      | (some _, p) => (some (.print keyword e), p)

/-- `Parser::return_statement` (parser.rs:269-278). -/
def Parser.return_statement : Nat → Parser → Option Stmt × Parser
  | 0, p => (none, p)
  | fuel + 1, p =>
    let keyword := p.previous.getD default
    match (if !p.check .semicolon then
             match Parser.expression fuel p with
             | (none, p) => (none, p)
             | (some e, p) => (some (some e), p)
           else (some none, p)) with
    | (none, p) => (none, p)
    | (some value, p) =>
      match p.consume .semicolon "Expect ';' after return value." with
      | (none, p) => (none, p)
      | (some _, p) => (some (.returnStmt keyword value), p)

/-- `Parser::while_statement` (parser.rs:280-291). -/
def Parser.while_statement : Nat → Parser → Option Stmt × Parser
  | 0, p => (none, p)
  | fuel + 1, p =>
    match p.consume .leftParen "Expect '(' after 'while'." with
    | (none, p) => (none, p)
    | (some _, p) =>
      match Parser.expression fuel p with
      | (none, p) => (none, p)
      | (some condition, p) =>
        match p.consume .rightParen "Expect ')' after condition." with
        | (none, p) => (none, p)
        | (some _, p) =>
          let enclosing_loop := p.loop_kind
          let p := { p with loop_kind := .whileLoop }
          match Parser.statement fuel p with
          | (none, p) => (none, p)
          | (some body, p) =>
            let p := { p with loop_kind := enclosing_loop }
            (some (.whileStmt condition body), p)

/-- `Parser::block` (parser.rs:293-302), with the statement accumulator
explicit. -/
def Parser.block : Nat → Parser → List Stmt → Option (List Stmt) × Parser
  | 0, p, _ => (none, p)
  | fuel + 1, p, acc =>
    if !p.is_at_end && !p.check .rightBrace then
      match Parser.declaration fuel p with
      | (none, p) => (none, p)
      | (some st, p) => Parser.block fuel p (acc ++ [st])
    else
      match p.consume .rightBrace "Expect '\x7d' after block." with
      | (none, p) => (none, p)
      | (some _, p) => (some acc, p)

/-- `Parser::block_statement` (parser.rs:304-308). -/
def Parser.block_statement : Nat → Parser → Option Stmt × Parser
  | 0, p => (none, p)
  | fuel + 1, p =>
    match Parser.block fuel p [] with
    | (none, p) => (none, p)
    | (some statements, p) => (some (.block statements), p)

/-- `Parser::expression_statement` (parser.rs:330-334). -/
def Parser.expression_statement : Nat → Parser → Option Stmt × Parser
  | 0, p => (none, p)
  | fuel + 1, p =>
    match Parser.expression fuel p with
    | (none, p) => (none, p)
    | (some e, p) =>
      match p.consume .semicolon "Expect ';' after expression." with
      | (none, p) => (none, p)
      | (some _, p) => (some (.expression e), p)

/-- `Parser::expression` (parser.rs:336-338). -/
def Parser.expression : Nat → Parser → Option Expr × Parser
  | 0, p => (none, p)
  | fuel + 1, p => Parser.assignment fuel p

/-- `Parser::assignment` (parser.rs:340-358).  On a non-variable assignment
target it reports "Invalid assignment target." and still returns the parsed
left-hand expression. -/
def Parser.assignment : Nat → Parser → Option Expr × Parser
  | 0, p => (none, p)
  | fuel + 1, p =>
    match Parser.or fuel p with
    | (none, p) => (none, p)
    | (some e, p) =>
      let m := p.match_current .equal
      if m.1 then
        let equals := m.2.previous.getD default
        match Parser.assignment fuel m.2 with
        | (none, p) => (none, p)
        | (some value, p) =>
          match e with
          | .varRef name => (some (.assign name value), p)
          | _ => (some e, p.error (some equals) "Invalid assignment target.")
      else (some e, m.2)

/-- `Parser::or` (parser.rs:360-374). -/
def Parser.or : Nat → Parser → Option Expr × Parser
  | 0, p => (none, p)
  | fuel + 1, p =>
    match Parser.and fuel p with
    | (none, p) => (none, p)
    | (some e, p) => Parser.orLoop fuel p e

/-- The while loop of `Parser::or`; the right operand is `and()`. -/
def Parser.orLoop : Nat → Parser → Expr → Option Expr × Parser
  | 0, p, _ => (none, p)
  | fuel + 1, p, e =>
    let m := p.match_current .orKw
    if m.1 then
      let operator := m.2.previous.getD default
      match Parser.and fuel m.2 with
      | (none, p) => (none, p)
      | (some right, p) => Parser.orLoop fuel p (.logical e operator right)
    else (some e, m.2)

/-- `Parser::and` (parser.rs:376-390). -/
def Parser.and : Nat → Parser → Option Expr × Parser
  | 0, p => (none, p)
  | fuel + 1, p =>
    match Parser.equality fuel p with
    | (none, p) => (none, p)
    | (some e, p) => Parser.andLoop fuel p e

/-- The while loop of `Parser::and`; the right operand is `and()` again. -/
def Parser.andLoop : Nat → Parser → Expr → Option Expr × Parser
  | 0, p, _ => (none, p)
  | fuel + 1, p, e =>
    let m := p.match_current .andKw
    if m.1 then
      let operator := m.2.previous.getD default
      match Parser.and fuel m.2 with
      | (none, p) => (none, p)
      | (some right, p) => Parser.andLoop fuel p (.logical e operator right)
    else (some e, m.2)

/-- `Parser::equality` (parser.rs:392-407). -/
def Parser.equality : Nat → Parser → Option Expr × Parser
  | 0, p => (none, p)
  | fuel + 1, p =>
    match Parser.comparison fuel p with
    | (none, p) => (none, p)
    | (some e, p) => Parser.equalityLoop fuel p e

/-- The while loop of `Parser::equality`:
`match_current(EqualEqual) || match_current(BangEqual)`. -/
def Parser.equalityLoop : Nat → Parser → Expr → Option Expr × Parser
  | 0, p, _ => (none, p)
  | fuel + 1, p, e =>
    let m1 := p.match_current .equalEqual
    if m1.1 then Parser.equalityStep fuel m1.2 e
    else
      let m2 := m1.2.match_current .bangEqual
      if m2.1 then Parser.equalityStep fuel m2.2 e
      else (some e, m2.2)

/-- One body iteration of the equality loop; the right operand is
`equality()` (parser.rs:398). -/
def Parser.equalityStep : Nat → Parser → Expr → Option Expr × Parser
  | 0, p, _ => (none, p)
  | fuel + 1, p, e =>
    let operator := p.previous.getD default
    match Parser.equality fuel p with
    | (none, p) => (none, p)
    | (some right, p) => Parser.equalityLoop fuel p (.binary e operator right)

/-- `Parser::comparison` (parser.rs:409-427). -/
def Parser.comparison : Nat → Parser → Option Expr × Parser
  | 0, p => (none, p)
  | fuel + 1, p =>
    match Parser.term fuel p with
    | (none, p) => (none, p)
    | (some e, p) => Parser.comparisonLoop fuel p e

/-- The while loop of `Parser::comparison` over the four comparison
operators. -/
def Parser.comparisonLoop : Nat → Parser → Expr → Option Expr × Parser
  | 0, p, _ => (none, p)
  | fuel + 1, p, e =>
    let m1 := p.match_current .greater
    if m1.1 then Parser.comparisonStep fuel m1.2 e else
    let m2 := m1.2.match_current .greaterEqual
    if m2.1 then Parser.comparisonStep fuel m2.2 e else
    let m3 := m2.2.match_current .less
    if m3.1 then Parser.comparisonStep fuel m3.2 e else
    let m4 := m3.2.match_current .lessEqual
    if m4.1 then Parser.comparisonStep fuel m4.2 e else
    (some e, m4.2)

/-- One body iteration of the comparison loop; the right operand is
`term()`. -/
def Parser.comparisonStep : Nat → Parser → Expr → Option Expr × Parser
  | 0, p, _ => (none, p)
  | fuel + 1, p, e =>
    let operator := p.previous.getD default
    match Parser.term fuel p with
    | (none, p) => (none, p)
    | (some right, p) => Parser.comparisonLoop fuel p (.binary e operator right)

/-- `Parser::term` (parser.rs:429-443). -/
def Parser.term : Nat → Parser → Option Expr × Parser
  | 0, p => (none, p)
  | fuel + 1, p =>
    match Parser.factor fuel p with
    | (none, p) => (none, p)
    | (some e, p) => Parser.termLoop fuel p e

/-- The while loop of `Parser::term`: `match(Plus) || match(Minus)`. -/
def Parser.termLoop : Nat → Parser → Expr → Option Expr × Parser
  | 0, p, _ => (none, p)
  | fuel + 1, p, e =>
    let m1 := p.match_current .plus
    if m1.1 then Parser.termStep fuel m1.2 e
    else
      let m2 := m1.2.match_current .minus
      if m2.1 then Parser.termStep fuel m2.2 e
      else (some e, m2.2)

/-- One body iteration of the term loop; the right operand is `factor()`. -/
def Parser.termStep : Nat → Parser → Expr → Option Expr × Parser
  | 0, p, _ => (none, p)
  | fuel + 1, p, e =>
    let operator := p.previous.getD default
    match Parser.factor fuel p with
    | (none, p) => (none, p)
    | (some right, p) => Parser.termLoop fuel p (.binary e operator right)

/-- `Parser::factor` (parser.rs:445-459). -/
def Parser.factor : Nat → Parser → Option Expr × Parser
  | 0, p => (none, p)
  | fuel + 1, p =>
    match Parser.unary fuel p with
    | (none, p) => (none, p)
    | (some e, p) => Parser.factorLoop fuel p e

/-- The while loop of `Parser::factor`: `match(Star) || match(Slash)`. -/
def Parser.factorLoop : Nat → Parser → Expr → Option Expr × Parser
  | 0, p, _ => (none, p)
  | fuel + 1, p, e =>
    let m1 := p.match_current .star
    if m1.1 then Parser.factorStep fuel m1.2 e
    else
      let m2 := m1.2.match_current .slash
      if m2.1 then Parser.factorStep fuel m2.2 e
      else (some e, m2.2)

/-- One body iteration of the factor loop; the right operand is `unary()`. -/
def Parser.factorStep : Nat → Parser → Expr → Option Expr × Parser
  | 0, p, _ => (none, p)
  | fuel + 1, p, e =>
    let operator := p.previous.getD default
    match Parser.unary fuel p with
    | (none, p) => (none, p)
    | (some right, p) => Parser.factorLoop fuel p (.binary e operator right)

/-- `Parser::unary` (parser.rs:461-472). -/
def Parser.unary : Nat → Parser → Option Expr × Parser
  | 0, p => (none, p)
  | fuel + 1, p =>
    let m1 := p.match_current .bang
    if m1.1 then
      let operator := m1.2.previous.getD default
      match Parser.unary fuel m1.2 with
      | (none, p) => (none, p)
      | (some right, p) => (some (.unary operator right), p)
    else
      let m2 := m1.2.match_current .minus
      if m2.1 then
        let operator := m2.2.previous.getD default
        match Parser.unary fuel m2.2 with
        | (none, p) => (none, p)
        | (some right, p) => (some (.unary operator right), p)
      else Parser.call fuel m2.2

/-- `Parser::finish_call` (parser.rs:474-497). -/
def Parser.finish_call : Nat → Parser → Expr → Option Expr × Parser
  | 0, p, _ => (none, p)
  | fuel + 1, p, callee =>
    match (if p.check .rightParen then (some [], p)
           else Parser.argsLoop fuel p []) with
    | (none, p) => (none, p)
    | (some args, p) =>
      match p.consume .rightParen "Expect ')' after args." with
      | (none, p) => (none, p)
      | (some paren, p) => (some (.call callee paren args), p)

/-- The argument loop of `Parser::finish_call` (parser.rs:477-488). -/
def Parser.argsLoop : Nat → Parser → List Expr → Option (List Expr) × Parser
  | 0, p, _ => (none, p)
  | fuel + 1, p, args =>
    let p := if args.length ≥ 255 then
        p.error p.peek "Can't have more than 255 arguments."
      else p
    match Parser.expression fuel p with
    | (none, p) => (none, p)
    | (some e, p) =>
      let args := args ++ [e]
      let m := p.match_current .comma
      if m.1 then Parser.argsLoop fuel m.2 args
      else (some args, m.2)

/-- `Parser::call` (parser.rs:499-507): one primary, then AT MOST ONE call
suffix — an `if`, not a loop. -/
def Parser.call : Nat → Parser → Option Expr × Parser
  | 0, p => (none, p)
  | fuel + 1, p =>
    match Parser.primary fuel p with
    | (none, p) => (none, p)
    | (some e, p) =>
      let m := p.match_current .leftParen
      if m.1 then Parser.finish_call fuel m.2 e
      else (some e, m.2)

/-- `Parser::primary` (parser.rs:509-538), literal arm. -/
def Parser.primary : Nat → Parser → Option Expr × Parser
  | 0, p => (none, p)
  | fuel + 1, p =>
    match p.peek with
    | some token =>
      if token.kind.isLiteralStart then (some (.literal token), (p.advance).2)
      else Parser.primaryRest fuel p
    | none => Parser.primaryRest fuel p

/-- `Parser::primary` after the literal arm falls through
(parser.rs:524-537): identifier, grouping, or "Expected expression.". -/
def Parser.primaryRest : Nat → Parser → Option Expr × Parser
  | 0, p => (none, p)
  | fuel + 1, p =>
    let m := p.match_current .identifier
    if m.1 then (some (.varRef (m.2.previous.getD default)), m.2)
    else
      let m2 := m.2.match_current .leftParen
      if m2.1 then
        match Parser.expression fuel m2.2 with
        | (none, p) => (none, p)
        | (some e, p) =>
          match p.consume .rightParen "Expect ')' after expression" with
          | (none, p) => (none, p)
          | (some _, p) => (some (.grouping e), p)
      else (none, m2.2.error m2.2.peek "Expected expression.")

end

/-- `Parser::synchronize` (parser.rs:540-562), the loop after the initial
advance. -/
def Parser.syncLoop : Nat → Parser → Parser
  | 0, p => p
  | fuel + 1, p =>
    if p.is_at_end then p
    else if (p.previous.getD default).kind == .semicolon then p
    else
      match p.peek with
      | some t =>
        match t.kind with
        | .classKw | .funKw | .varKw | .forKw | .ifKw | .whileKw | .printKw
        | .returnKw => p
        | _ => Parser.syncLoop fuel (p.advance).2
      | none => p

/-- `Parser::synchronize` (parser.rs:540-562). -/
def Parser.synchronize (fuel : Nat) (p : Parser) : Parser :=
  Parser.syncLoop fuel (p.advance).2

/-- The main loop of `parse_tokens` (parser.rs:565-582). -/
def Parser.parseLoop : Nat → Parser → List Stmt → List Stmt × Parser
  | 0, p, acc => (acc, p)
  | fuel + 1, p, acc =>
    if p.is_at_end then (acc, p)
    else
      match Parser.declaration fuel p with
      | (some stmt, p) => Parser.parseLoop fuel p (acc ++ [stmt])
      | (none, p) => Parser.parseLoop fuel (Parser.synchronize fuel p) acc

/-- `parse_tokens` (parser.rs:565-582): None exactly when any error was
reported. -/
def parse_tokens (fuel : Nat) (tokens : List Token) : Option (List Stmt) :=
  let r := Parser.parseLoop fuel (Parser.new tokens) []
  if r.2.had_error then none else some r.1

/-- An expression that is not a Call node. -/
def notCallExpr : Expr → Prop
  | .call _ _ _ => False
  | _ => True

/-- An expression that is not a call whose callee is directly another call —
what a chained call `f()()` would parse to. -/
def directCalleeNotCall : Expr → Prop
  | .call (.call _ _ _) _ _ => False
  | _ => True

def optNotCall : Option Expr × Parser → Prop
  | (some e, _) => notCallExpr e
  | (none, _) => True

def resultNotNested : Option Expr × Parser → Prop
  | (some e, _) => directCalleeNotCall e
  | (none, _) => True

theorem primaryRest_not_call (fuel : Nat) (p : Parser) :
    optNotCall (Parser.primaryRest fuel p) := by
  cases fuel with
  | zero => trivial
  | succ fuel =>
    simp only [Parser.primaryRest]
    split
    · trivial
    · split
      · split
        · trivial
        · split
          · trivial
          · trivial
      · trivial

theorem primary_not_call (fuel : Nat) (p : Parser) :
    optNotCall (Parser.primary fuel p) := by
  cases fuel with
  | zero => trivial
  | succ fuel =>
    simp only [Parser.primary]
    split
    · split
      · trivial
      · exact primaryRest_not_call fuel p
    · exact primaryRest_not_call fuel p

theorem notCall_direct (e : Expr) (h : notCallExpr e) : directCalleeNotCall e := by
  cases e <;> trivial

theorem finish_call_not_nested (fuel : Nat) (p : Parser) (callee : Expr)
    (h : notCallExpr callee) :
    resultNotNested (Parser.finish_call fuel p callee) := by
  cases fuel with
  | zero => trivial
  | succ fuel =>
    simp only [Parser.finish_call]
    split
    · trivial
    · split
      · trivial
      · show directCalleeNotCall (.call callee _ _)
        cases callee <;> simp [directCalleeNotCall, notCallExpr] at h ⊢

theorem call_single_suffix (fuel : Nat) (p : Parser) :
    resultNotNested (Parser.call fuel p) := by
  cases fuel with
  | zero => trivial
  | succ fuel =>
    have hp := primary_not_call fuel p
    simp only [Parser.call]
    split
    · trivial
    · next e p2 heq =>
      rw [heq] at hp
      split
      · exact finish_call_not_nested fuel _ e hp
      · exact notCall_direct e hp

/-- The scanner's token stream for the source `f()();`. -/
def fCallCallTokens : List Token :=
  [⟨.identifier, 1, "f"⟩, ⟨.leftParen, 1, "("⟩, ⟨.rightParen, 1, ")"⟩,
   ⟨.leftParen, 1, "("⟩, ⟨.rightParen, 1, ")"⟩, ⟨.semicolon, 1, ";"⟩]

/-- Claim C10: `Parser::call` consumes at most one call suffix per primary
expression — its result is never a call whose callee is directly another
call, for any fuel and parser state — and consequently parsing the
well-formed input `f()();` fails with a compile error (`parse_tokens`
returns None: after `f()` the second `(` is left unconsumed and
"Expect ';' after expression." is reported). -/
theorem parser_single_call_suffix :
    (∀ (fuel : Nat) (p : Parser), resultNotNested (Parser.call fuel p)) ∧
    parse_tokens 100 fCallCallTokens = none :=
  ⟨call_single_suffix, rfl⟩

end Lox
